import Mathlib

/-!
# Verification of the audio-analyzer spectral feature extraction core

Shallow embedding of `audio_frame_analysis.py`, `run_modes.py` and
`data_and_error_logging.py`.  Real-valued samples, window coefficients and
spectral magnitudes are modelled as exact rationals; the external FFT
(`scipy.fft.rfft` composed with `np.abs`) and the Hann window constructor are
parameters of the analyzer, since they are library code outside this
repository.  Machine floats are modelled exactly; the claims under study are
about control flow, clamping, partition and serialization structure, none of
which depend on rounding of the binary floats.
-/

namespace AudioAnalyzer

/-- Constant `CUTOFF_HZ = 20_500.0` from `audio_frame_analysis.py`. -/
def CUTOFF_HZ : ℚ := 20500

/-- Constant `NYQUIST_SAFETY_BAND_HZ = 100.0` from `audio_frame_analysis.py`. -/
def NYQUIST_SAFETY_BAND_HZ : ℚ := 100

/-- Number of elements of Python `range(0, stop, step)` for a positive `step`
(the iteration count of the segmenter loop; `stop` may be negative). -/
def pyRangeLen (stop : ℤ) (step : ℕ) : ℕ :=
  if stop ≤ 0 then 0 else (stop - 1).toNat / step + 1

/-- Python `range(0, stop, step)` for a positive `step`: the start offsets
`0, step, 2*step, …` strictly below `stop`. -/
def pyRange (stop : ℤ) (step : ℕ) : List ℕ :=
  (List.range (pyRangeLen stop step)).map (· * step)

/-- Function `divide_into_frames(data, frame_size=32768, step=16384)`:
`[data[start:start+frame_size] for start in range(0, len(data)-frame_size+1, step)]`. -/
def divide_into_frames (data : List ℚ) (frame_size : ℕ := 32768)
    (step : ℕ := 16384) : List (List ℚ) :=
  (pyRange ((data.length : ℤ) - frame_size + 1) step).map
    (fun start => (data.drop start).take frame_size)

/-- Function `calculate_effective_cutoff(samplerate)`:
`min(CUTOFF_HZ, max(0.0, samplerate/2.0 - NYQUIST_SAFETY_BAND_HZ))`. -/
def calculate_effective_cutoff (samplerate : ℚ) : ℚ :=
  min CUTOFF_HZ (max 0 (samplerate / 2 - NYQUIST_SAFETY_BAND_HZ))

/-- Function `_cutoff_bin(n, samplerate, cutoff_hz)`:
`df = samplerate / n; k = int(np.floor(cutoff_hz / df)); max(0, min(k, n // 2))`. -/
def _cutoff_bin (n : ℕ) (samplerate cutoff_hz : ℚ) : ℕ :=
  let df := samplerate / n
  let k : ℤ := ⌊cutoff_hz / df⌋
  (max 0 (min k (n / 2 : ℕ))).toNat

/-- The bin index the C2 claim describes, written from the claim's words:
the first spectral bin strictly above the cutoff frequency — the smallest `k`
with `k * (samplerate / n) > cutoff_hz` — clamped to `[0, n / 2]`.  Used only
to compare against the source's `_cutoff_bin`. -/
def first_bin_above (n : ℕ) (samplerate cutoff_hz : ℚ) : ℕ :=
  match (List.range (n / 2 + 1)).find?
      (fun (k : ℕ) => decide (cutoff_hz < (k : ℚ) * (samplerate / n))) with
  | some k => k
  | none => n / 2

/-- The `FrameFFT` dataclass: frequency axis, magnitude spectrum, total energy. -/
structure FrameFFT where
  freqs_hz : List ℚ
  spectrum_abs : List ℚ
  total_energy : ℚ
deriving DecidableEq

/-- Python `np.max(np.abs(x))` for a frame (0 on the empty frame, which the source
never produces since frames have positive length). -/
def maxAbs (x : List ℚ) : ℚ :=
  (x.map (fun v => |v|)).foldr max 0

/-- The silence threshold `1e-4` from `analyze_frame`. -/
def SILENCE_THRESHOLD : ℚ := 1 / 10000

/-- Function `analyze_frame(single_frame, samplerate, effective_cutoff, fft_cache_list)`
on a single-channel frame.  `hann_window` models the cached
`_hann_window(n, dtype)` (library-supplied window coefficients), `rfft_abs`
models `np.abs(scipy.fft.rfft(·))` (library-supplied magnitude spectrum) and
`rfftfreq` models the cached `_rfftfreq_cached(n, samplerate)`; all three are
external library calls, so the analyzer is parametric in them.  Returns the
ratio together with the (possibly extended) capture list. -/
def analyze_frame (hann_window : ℕ → List ℚ) (rfft_abs : List ℚ → List ℚ)
    (rfftfreq : ℕ → ℚ → List ℚ) (single_frame : List ℚ)
    (samplerate effective_cutoff : ℚ) (fft_cache_list : Option (List FrameFFT)) :
    ℚ × Option (List FrameFFT) :=
  let x := single_frame
  if maxAbs x < SILENCE_THRESHOLD then
    (0, fft_cache_list.map (fun l => l ++ [⟨[], [], 0⟩]))
  else
    let n := x.length
    let w := hann_window n
    let windowed := x.zipWith (· * ·) w
    let spectrum := rfft_abs windowed
    let total_energy := spectrum.sum
    if total_energy ≤ 0 then
      (0, fft_cache_list.map (fun l => l ++ [⟨rfftfreq n samplerate, spectrum, 0⟩]))
    else
      let k := _cutoff_bin n samplerate effective_cutoff
      let high_band_energy := (spectrum.drop (k + 1)).sum
      let ratio := high_band_energy / total_energy
      ( ratio,
        fft_cache_list.map (fun l => l ++ [⟨rfftfreq n samplerate, spectrum, total_energy⟩]))

/-- Expression `sum(r > 0 for r in ratios)` from `run_single_file` step 6: Python sums
booleans as 0/1. -/
def count_positive (ratios : List ℚ) : ℕ :=
  (ratios.map (fun r => if r > 0 then 1 else 0)).sum

/-- A value stored in a per-file result dict cell: a string, a real, or an
integer (Python is dynamically typed; these are the types the code stores). -/
inductive CellValue
  | vstr (s : String)
  | vnum (q : ℚ)
  | vint (z : ℤ)
deriving DecidableEq

/-- A per-file result row over the `RESULT_FIELDNAMES` schema of
`run_modes.py` / `data_and_error_logging.py`. -/
structure ResultRow where
  path : CellValue
  status : CellValue
  confidence : CellValue
  samplerate_hz : CellValue
  num_samples : CellValue
  num_total_frames : CellValue
  num_non_silent_frames : CellValue
  effective_cutoff_hz : CellValue
  per_cutoff_active_fraction : CellValue
deriving DecidableEq

/-- The schema-safe error row built in the `except` branch of
`run_folder_batch`: the initial `{"path": ..., "status": ""}` dict updated
with status `"ERROR"` and every other field set to the empty string. -/
def error_row (p : String) : ResultRow where
  path := .vstr p
  status := .vstr "ERROR"
  confidence := .vstr ""
  samplerate_hz := .vstr ""
  num_samples := .vstr ""
  num_total_frames := .vstr ""
  num_non_silent_frames := .vstr ""
  effective_cutoff_hz := .vstr ""
  per_cutoff_active_fraction := .vstr ""

/-- The per-file loop of `run_folder_batch`: for each discovered path run
`run_single_file` (modelled as a function returning `Except`, since any
exception is caught), on failure substitute the error row, and collect the
path into the spectrogram list when the row's status differs from
`"Likely ORIGINAL"`.  Returns (result rows, upscaled paths) in input order. -/
def run_folder_batch_loop (run_single : String → Except String ResultRow) :
    List String → List ResultRow × List String
  | [] => ([], [])
  | fp :: rest =>
    let result := match run_single fp with
      | .ok r => r
      | .error _ => error_row fp
    let rec_rest := run_folder_batch_loop run_single rest
    (result :: rec_rest.1,
      (if result.status ≠ CellValue.vstr "Likely ORIGINAL" then fp :: rec_rest.2
       else rec_rest.2))

/-- The decimal digit character for `m < 10` (`'0'` as the out-of-range
default, never reached on in-range arguments). -/
def decDigit (m : ℕ) : Char :=
  ['0', '1', '2', '3', '4', '5', '6', '7', '8', '9'].getD m '0'

/-- Fuel-driven decimal digit expansion of a natural number, most significant
digit first.  Any `fuel > 0` with `fuel ≥ n` suffices. -/
def natDecDigitsAux : ℕ → ℕ → List Char
  | 0, _ => []
  | fuel + 1, n =>
    if n < 10 then [decDigit n]
    else natDecDigitsAux fuel (n / 10) ++ [decDigit (n % 10)]

/-- Decimal digit string of a natural number (Python `str` on a nonnegative
int), most significant digit first, no leading zeros except for `0` itself. -/
def natDecDigits (n : ℕ) : List Char := natDecDigitsAux (n + 1) n

/-- Python `str` of an int: optional minus sign followed by decimal digits. -/
def intDecRepr (z : ℤ) : List Char :=
  (if z < 0 then ['-'] else []) ++ natDecDigits z.natAbs

/-- Python `int(·)` applied to a real value: truncation toward zero. -/
def pyInt (q : ℚ) : ℤ := if q < 0 then -⌊-q⌋ else ⌊q⌋

/-- Round to the nearest integer with ties to even, the rounding used by
Python fixed-point float formatting. -/
def roundHalfEven (q : ℚ) : ℤ :=
  let f := ⌊q⌋
  let r := q - f
  if r < 1 / 2 then f
  else if 1 / 2 < r then f + 1
  else if f % 2 = 0 then f else f + 1

/-- Python `f"{v:.<d>f}"` as a character list: optional sign, at least one
integer digit, `'.'`, then exactly `d` fractional digits. -/
def formatFixedChars (d : ℕ) (q : ℚ) : List Char :=
  let m := roundHalfEven (q * (10 : ℚ) ^ d)
  let sign : List Char := if m < 0 then ['-'] else []
  let ds0 := natDecDigits m.natAbs
  let ds := List.replicate (d + 1 - ds0.length) '0' ++ ds0
  sign ++ ds.take (ds.length - d) ++ '.' :: ds.drop (ds.length - d)

/-- Python `f"{v:.<d>f}"` as a string. -/
def formatFixed (d : ℕ) (q : ℚ) : String := ⟨formatFixedChars d q⟩

/-- The order Python `sorted` uses on `dict.items()` pairs: lexicographic on
(key, value). -/
def pairLe (a b : ℚ × ℚ) : Prop := a.1 < b.1 ∨ (a.1 = b.1 ∧ a.2 ≤ b.2)

instance : DecidableRel pairLe := fun a b => by unfold pairLe; infer_instance

instance : IsTotal (ℚ × ℚ) pairLe where
  total a b := by
    rcases lt_trichotomy a.1 b.1 with h | h | h
    · exact Or.inl (Or.inl h)
    · rcases le_total a.2 b.2 with h2 | h2
      · exact Or.inl (Or.inr ⟨h, h2⟩)
      · exact Or.inr (Or.inr ⟨h.symm, h2⟩)
    · exact Or.inr (Or.inl h)

instance : IsTrans (ℚ × ℚ) pairLe where
  trans a b c hab hbc := by
    rcases hab with h | ⟨he, hv⟩ <;> rcases hbc with h2 | ⟨he2, hv2⟩
    · exact Or.inl (h.trans h2)
    · exact Or.inl (he2 ▸ h)
    · exact Or.inl (he ▸ h2)
    · exact Or.inr ⟨he.trans he2, hv.trans hv2⟩

/-- Python `sorted(fractions.items())`: a stable sort of the key/value pairs
in lexicographic order (dict keys are distinct, so this orders by key). -/
def sortedPairs (l : List (ℚ × ℚ)) : List (ℚ × ℚ) := l.insertionSort pairLe

/-- One `f"{int(k)}={v:.4f}"` entry of the per-cutoff activity map. -/
def fraction_entry (kv : ℚ × ℚ) : String :=
  String.mk (intDecRepr (pyInt kv.1)) ++ "=" ++ formatFixed 4 kv.2

/-- Function `_format_fractions_for_csv(fractions)` from `run_modes.py`: the empty
string when `fractions` is `None` or empty (both modelled by `[]`), otherwise
`";".join(f"{int(k)}={v:.4f}" for k, v in sorted(fractions.items()))`. -/
def _format_fractions_for_csv (fractions : List (ℚ × ℚ)) : String :=
  if fractions = [] then ""
  else String.intercalate ";" ((sortedPairs fractions).map fraction_entry)

/-- The confidence reformat in `append_results_to_csv`:
`if isinstance(conf, (float, int)): row["confidence"] = f"{float(conf):.6f}"`,
all other values pass through unchanged. -/
def serialize_confidence (conf : CellValue) : CellValue :=
  match conf with
  | .vnum q => .vstr (formatFixed 6 q)
  | .vint z => .vstr (formatFixed 6 (z : ℚ))
  | c => c

/-! ## Helper lemmas -/

/-- Every element of `pyRange stop step` is strictly below `stop`. -/
theorem lt_of_mem_pyRange {stop : ℤ} {step : ℕ} (hstep : 0 < step) {s : ℕ}
    (hs : s ∈ pyRange stop step) : (s : ℤ) < stop := by
  rcases List.mem_map.1 hs with ⟨j, hj, rfl⟩
  rw [List.mem_range] at hj
  unfold pyRangeLen at hj
  by_cases hstop : stop ≤ 0
  · rw [if_pos hstop] at hj; omega
  · rw [if_neg hstop] at hj
    have hj' : j ≤ (stop - 1).toNat / step := by omega
    have := (Nat.le_div_iff_mul_le hstep).1 hj'
    omega

/-! ## C1 -/

/-- C1 counterexample: at the positive sample rate 100, the code returns an
effective cutoff of 0, which neither satisfies the claimed bound
`≤ min(20500, 100/2 − 100) = −50` nor sits 100 Hz below the Nyquist frequency
50; the claim's bound omits the `max(0.0, ·)` clamp applied by the source. -/
theorem calculate_effective_cutoff_claim_false_at_100 :
    (0 : ℚ) < 100 ∧ calculate_effective_cutoff 100 = 0 ∧
      ¬ calculate_effective_cutoff 100 ≤ min 20500 ((100 : ℚ) / 2 - 100) ∧
      ¬ calculate_effective_cutoff 100 + 100 ≤ (100 : ℚ) / 2 := by
  norm_num [calculate_effective_cutoff, CUTOFF_HZ, NYQUIST_SAFETY_BAND_HZ]

/-- C1 (amended): for every positive sample rate the effective cutoff lies in
`[0, 20500]`, and for sample rates of at least 200 Hz it additionally
satisfies `EffectiveCutoff(sr) ≤ min(20500, sr/2 − 100)`, hence sits below
the Nyquist frequency `sr/2` by at least the 100 Hz safety margin.  (Below
200 Hz the code clamps the cutoff to 0 instead of letting it go negative.) -/
theorem calculate_effective_cutoff_bounds (sr : ℚ) (_hsr : 0 < sr) :
    0 ≤ calculate_effective_cutoff sr ∧ calculate_effective_cutoff sr ≤ 20500 ∧
      (200 ≤ sr → calculate_effective_cutoff sr ≤ min 20500 (sr / 2 - 100) ∧
        calculate_effective_cutoff sr + 100 ≤ sr / 2) := by
  unfold calculate_effective_cutoff CUTOFF_HZ NYQUIST_SAFETY_BAND_HZ
  refine ⟨le_min (by norm_num) (le_max_left _ _), min_le_left _ _, fun h200 => ?_⟩
  have hmax : max (0 : ℚ) (sr / 2 - 100) = sr / 2 - 100 := max_eq_right (by linarith)
  rw [hmax]
  refine ⟨le_refl _, ?_⟩
  have := min_le_right (20500 : ℚ) (sr / 2 - 100)
  linarith

/-- C1 witness: the amended bounds instantiated at sample rate 44100. -/
theorem calculate_effective_cutoff_bounds_witness :
    0 ≤ calculate_effective_cutoff 44100 ∧
      calculate_effective_cutoff 44100 ≤ 20500 ∧
      (200 ≤ (44100 : ℚ) →
        calculate_effective_cutoff 44100 ≤ min 20500 ((44100 : ℚ) / 2 - 100) ∧
        calculate_effective_cutoff 44100 + 100 ≤ (44100 : ℚ) / 2) :=
  calculate_effective_cutoff_bounds 44100 (by norm_num)

/-! ## C2 -/

/-- C2 counterexample: at `n = 4`, `sr = 4`, `c = 1` (all satisfying the
claim's preconditions), the source's `_cutoff_bin` returns 1 — the *last* bin
whose frequency is at most the cutoff — while the first spectral bin strictly
above the cutoff frequency is bin 2. -/
theorem cutoff_bin_ne_first_bin_above :
    (0 : ℕ) < 4 ∧ (0 : ℚ) < 4 ∧ (0 : ℚ) ≤ 1 ∧
      _cutoff_bin 4 4 1 = 1 ∧ first_bin_above 4 4 1 = 2 := by
  refine ⟨by norm_num, by norm_num, by norm_num, ?_, ?_⟩
  · norm_num [_cutoff_bin, Int.toNat_ofNat]
  · show (match (List.range 3).find?
        (fun (k : ℕ) => decide ((1 : ℚ) < (k : ℚ) * ((4 : ℚ) / ((4 : ℕ) : ℚ)))) with
      | some k => k
      | none => 4 / 2) = 2
    norm_num [List.range_succ, List.find?]

/-- C2 (amended): for every frame length `n > 0`, sample rate `sr > 0` and
cutoff `c ≥ 0`, the resolved cutoff bin index lies in `[0, n//2]` and is the
*largest* bin index `j ≤ n//2` whose bin frequency `j·(sr/n)` is at most the
cutoff frequency (one less than the first bin strictly above the cutoff,
before clamping), rather than the first bin strictly above it. -/
theorem cutoff_bin_greatest_le_cutoff (n : ℕ) (sr c : ℚ)
    (hn : 0 < n) (hsr : 0 < sr) (hc : 0 ≤ c) :
    _cutoff_bin n sr c ≤ n / 2 ∧
      _cutoff_bin n sr c =
        Nat.findGreatest (fun j => (j : ℚ) * (sr / n) ≤ c) (n / 2) := by
  have hnq : (0 : ℚ) < (n : ℚ) := by exact_mod_cast hn
  set df := sr / (n : ℚ) with hdf
  have hdfpos : 0 < df := div_pos hsr hnq
  have hfq : (0 : ℤ) ≤ ⌊c / df⌋ := Int.floor_nonneg.mpr (div_nonneg hc hdfpos.le)
  have hcb : _cutoff_bin n sr c = (min ⌊c / df⌋ ((n / 2 : ℕ) : ℤ)).toNat := by
    simp only [_cutoff_bin]
    rw [← hdf, max_eq_right (le_min hfq (by positivity))]
  have h1 : _cutoff_bin n sr c ≤ n / 2 := by
    rw [hcb]
    have := min_le_right ⌊c / df⌋ ((n / 2 : ℕ) : ℤ)
    omega
  have hP : ((_cutoff_bin n sr c : ℕ) : ℚ) * df ≤ c := by
    have hle : ((_cutoff_bin n sr c : ℕ) : ℤ) ≤ ⌊c / df⌋ := by
      rw [hcb]
      have := min_le_left ⌊c / df⌋ ((n / 2 : ℕ) : ℤ)
      omega
    have hq : ((_cutoff_bin n sr c : ℕ) : ℚ) ≤ c / df := by
      calc ((_cutoff_bin n sr c : ℕ) : ℚ) ≤ ((⌊c / df⌋ : ℤ) : ℚ) := by exact_mod_cast hle
        _ ≤ c / df := Int.floor_le _
    exact (le_div_iff₀ hdfpos).1 hq
  have hmaximal : ∀ j : ℕ, j ≤ n / 2 → (j : ℚ) * df ≤ c → j ≤ _cutoff_bin n sr c := by
    intro j hj hjc
    have hjq : (j : ℚ) ≤ c / df := (le_div_iff₀ hdfpos).2 hjc
    have hjf : (j : ℤ) ≤ ⌊c / df⌋ := Int.le_floor.mpr (by exact_mod_cast hjq)
    rw [hcb]
    omega
  refine ⟨h1, le_antisymm (Nat.le_findGreatest h1 hP) ?_⟩
  by_cases h0 : Nat.findGreatest (fun j => (j : ℚ) * df ≤ c) (n / 2) = 0
  · omega
  · have hPg := (Nat.findGreatest_eq_iff.1 rfl).2.1 h0
    exact hmaximal _ (Nat.findGreatest_le _) hPg

/-- C2 witness: the amended characterization instantiated at
`n = 4`, `sr = 4`, `c = 1`. -/
theorem cutoff_bin_greatest_le_cutoff_witness :
    _cutoff_bin 4 4 1 ≤ 4 / 2 ∧
      _cutoff_bin 4 4 1 =
        Nat.findGreatest (fun j => (j : ℚ) * ((4 : ℚ) / ((4 : ℕ) : ℚ)) ≤ 1) (4 / 2) :=
  cutoff_bin_greatest_le_cutoff 4 4 1 (by norm_num) (by norm_num) (by norm_num)

/-! ## C6 -/

/-- C6: for every sample buffer and positive `frame_size` and `step`, every
frame produced by `divide_into_frames` has length exactly `frame_size` (the
final partial frame is dropped, with no zero-padding); a buffer shorter than
`frame_size` yields zero frames and a buffer of exactly `frame_size` yields
exactly one frame. -/
theorem divide_into_frames_boundary (data : List ℚ) (frame_size step : ℕ)
    (hfs : 0 < frame_size) (hstep : 0 < step) :
    (∀ fr ∈ divide_into_frames data frame_size step, fr.length = frame_size) ∧
      (data.length < frame_size → divide_into_frames data frame_size step = []) ∧
      (data.length = frame_size →
        (divide_into_frames data frame_size step).length = 1) := by
  refine ⟨?_, ?_, ?_⟩
  · intro fr hfr
    rcases List.mem_map.1 hfr with ⟨s, hs, rfl⟩
    have hslt := lt_of_mem_pyRange hstep hs
    have hsle : s + frame_size ≤ data.length := by omega
    simp only [List.length_take, List.length_drop]
    omega
  · intro hlt
    unfold divide_into_frames pyRange pyRangeLen
    rw [if_pos (by omega : (data.length : ℤ) - frame_size + 1 ≤ 0)]
    rfl
  · intro heq
    unfold divide_into_frames pyRange pyRangeLen
    rw [heq]
    have h1 : ((frame_size : ℤ) : ℤ) - frame_size + 1 = 1 := by ring
    rw [h1, if_neg (by norm_num)]
    simp [Nat.zero_div]

/-- C6 witness: instantiated at the buffer `[1, 2, 3]` with
`frame_size = 3`, `step = 2`. -/
theorem divide_into_frames_boundary_witness :
    (∀ fr ∈ divide_into_frames [1, 2, 3] 3 2, fr.length = 3) ∧
      (([1, 2, 3] : List ℚ).length < 3 → divide_into_frames [1, 2, 3] 3 2 = []) ∧
      (([1, 2, 3] : List ℚ).length = 3 →
        (divide_into_frames [1, 2, 3] 3 2).length = 1) :=
  divide_into_frames_boundary [1, 2, 3] 3 2 (by norm_num) (by norm_num)

/-! ## Analyzer helper lemmas -/

/-- Branch characterization of the ratio returned by `analyze_frame`. -/
theorem analyze_frame_fst_eq (hw : ℕ → List ℚ) (rf : List ℚ → List ℚ)
    (rff : ℕ → ℚ → List ℚ) (frame : List ℚ) (sr c : ℚ)
    (cache : Option (List FrameFFT)) :
    (analyze_frame hw rf rff frame sr c cache).1 =
      if maxAbs frame < SILENCE_THRESHOLD then 0
      else if (rf (frame.zipWith (· * ·) (hw frame.length))).sum ≤ 0 then 0
      else ((rf (frame.zipWith (· * ·) (hw frame.length))).drop
            (_cutoff_bin frame.length sr c + 1)).sum /
          (rf (frame.zipWith (· * ·) (hw frame.length))).sum := by
  simp only [analyze_frame]
  split_ifs <;> rfl

/-! ## C3 -/

/-- C3: for every frame (and any magnitude spectrum, i.e. any `rfft_abs`
whose output values are nonnegative, as `np.abs` guarantees), the ratio
returned by `analyze_frame` lies in `[0, 1]`; and whenever the total spectral
energy is non-positive — the only degenerate case expressible in the exact
arithmetic of the embedding, where non-finite values do not arise — the
returned ratio is exactly 0. -/
theorem analyze_frame_ratio_in_unit_interval (hw : ℕ → List ℚ)
    (rf : List ℚ → List ℚ) (rff : ℕ → ℚ → List ℚ) (frame : List ℚ)
    (sr c : ℚ) (cache : Option (List FrameFFT))
    (hmag : ∀ v ∈ rf (frame.zipWith (· * ·) (hw frame.length)), 0 ≤ v) :
    (0 ≤ (analyze_frame hw rf rff frame sr c cache).1 ∧
      (analyze_frame hw rf rff frame sr c cache).1 ≤ 1) ∧
    ((rf (frame.zipWith (· * ·) (hw frame.length))).sum ≤ 0 →
      (analyze_frame hw rf rff frame sr c cache).1 = 0) := by
  rw [analyze_frame_fst_eq]
  by_cases hsil : maxAbs frame < SILENCE_THRESHOLD
  · simp [hsil]
  · rw [if_neg hsil]
    by_cases htot : (rf (frame.zipWith (· * ·) (hw frame.length))).sum ≤ 0
    · simp [htot]
    · rw [if_neg htot]
      push_neg at htot
      have hhigh : 0 ≤ ((rf (frame.zipWith (· * ·) (hw frame.length))).drop
          (_cutoff_bin frame.length sr c + 1)).sum :=
        List.sum_nonneg fun v hv => hmag v (List.mem_of_mem_drop hv)
      have htake : 0 ≤ ((rf (frame.zipWith (· * ·) (hw frame.length))).take
          (_cutoff_bin frame.length sr c + 1)).sum :=
        List.sum_nonneg fun v hv => hmag v (List.mem_of_mem_take hv)
      have hsplit : ((rf (frame.zipWith (· * ·) (hw frame.length))).take
            (_cutoff_bin frame.length sr c + 1)).sum +
          ((rf (frame.zipWith (· * ·) (hw frame.length))).drop
            (_cutoff_bin frame.length sr c + 1)).sum =
          (rf (frame.zipWith (· * ·) (hw frame.length))).sum := by
        rw [← List.sum_append, List.take_append_drop]
      refine ⟨⟨div_nonneg hhigh htot.le, ?_⟩, fun h => absurd h (not_le.2 htot)⟩
      rw [div_le_one htot]
      linarith

/-- C3 witness: the unit-interval bound and the degenerate-energy guard
instantiated on the frame `[1, 1, 1, 1]` with an all-ones window, the
magnitude spectrum `[2, 1, 1]`, sample rate 4 and cutoff 1. -/
theorem analyze_frame_ratio_in_unit_interval_witness :
    (∀ v ∈ ([2, 1, 1] : List ℚ), 0 ≤ v) ∧
    ((0 ≤ (analyze_frame (fun n => List.replicate n 1) (fun _ => [2, 1, 1])
          (fun _ _ => []) [1, 1, 1, 1] 4 1 none).1 ∧
        (analyze_frame (fun n => List.replicate n 1) (fun _ => [2, 1, 1])
          (fun _ _ => []) [1, 1, 1, 1] 4 1 none).1 ≤ 1) ∧
      (([2, 1, 1] : List ℚ).sum ≤ 0 →
        (analyze_frame (fun n => List.replicate n 1) (fun _ => [2, 1, 1])
          (fun _ _ => []) [1, 1, 1, 1] 4 1 none).1 = 0)) :=
  ⟨by norm_num,
    analyze_frame_ratio_in_unit_interval (fun n => List.replicate n 1)
      (fun _ => [2, 1, 1]) (fun _ _ => []) [1, 1, 1, 1] 4 1 none
      (by norm_num)⟩

/-! ## C4 -/

/-- C4: for every non-silent frame with positive total spectral energy, the
high-band energy (sum of magnitudes strictly above the cutoff bin `k`) plus
the sum of the magnitudes at bins `0..k` inclusive equals the total energy,
and the returned ratio times the total energy is exactly the high-band
energy (the partition is exact in the rational embedding). -/
theorem analyze_frame_energy_partition (hw : ℕ → List ℚ)
    (rf : List ℚ → List ℚ) (rff : ℕ → ℚ → List ℚ) (frame : List ℚ)
    (sr c : ℚ) (cache : Option (List FrameFFT))
    (hns : ¬ maxAbs frame < SILENCE_THRESHOLD)
    (hpos : 0 < (rf (frame.zipWith (· * ·) (hw frame.length))).sum) :
    ((rf (frame.zipWith (· * ·) (hw frame.length))).drop
          (_cutoff_bin frame.length sr c + 1)).sum +
        ((rf (frame.zipWith (· * ·) (hw frame.length))).take
          (_cutoff_bin frame.length sr c + 1)).sum =
        (rf (frame.zipWith (· * ·) (hw frame.length))).sum ∧
      (analyze_frame hw rf rff frame sr c cache).1 *
          (rf (frame.zipWith (· * ·) (hw frame.length))).sum =
        ((rf (frame.zipWith (· * ·) (hw frame.length))).drop
          (_cutoff_bin frame.length sr c + 1)).sum := by
  constructor
  · rw [add_comm, ← List.sum_append, List.take_append_drop]
  · rw [analyze_frame_fst_eq, if_neg hns, if_neg (not_le.2 hpos)]
    exact div_mul_cancel₀ _ (ne_of_gt hpos)

/-- C4 witness: the energy partition instantiated on the frame
`[1, 1, 1, 1]` with magnitude spectrum `[2, 1, 1]`, sample rate 4, cutoff 1
(cutoff bin 1, high band `[1]`, total energy 4, ratio 1/4). -/
theorem analyze_frame_energy_partition_witness :
    ¬ maxAbs [1, 1, 1, 1] < SILENCE_THRESHOLD ∧
      (0 : ℚ) < ([2, 1, 1] : List ℚ).sum ∧
      (([2, 1, 1] : List ℚ).drop (_cutoff_bin 4 4 1 + 1)).sum +
          (([2, 1, 1] : List ℚ).take (_cutoff_bin 4 4 1 + 1)).sum =
          ([2, 1, 1] : List ℚ).sum ∧
      (analyze_frame (fun n => List.replicate n 1) (fun _ => [2, 1, 1])
            (fun _ _ => []) [1, 1, 1, 1] 4 1 none).1 *
          ([2, 1, 1] : List ℚ).sum =
        (([2, 1, 1] : List ℚ).drop (_cutoff_bin 4 4 1 + 1)).sum := by
  have hns : ¬ maxAbs [1, 1, 1, 1] < SILENCE_THRESHOLD := by
    norm_num [maxAbs, SILENCE_THRESHOLD]
  have hpos : (0 : ℚ) < ([2, 1, 1] : List ℚ).sum := by norm_num
  have h := analyze_frame_energy_partition (fun n => List.replicate n 1)
    (fun _ => [2, 1, 1]) (fun _ _ => []) [1, 1, 1, 1] 4 1 none hns hpos
  exact ⟨hns, hpos, h.1, h.2⟩

/-! ## C5 -/

/-- C5: for every frame whose maximum absolute sample value is below `1e-4`,
`analyze_frame` returns exactly 0; when profile capture is requested it
appends the empty profile with zero total energy to the capture list (and
leaves an absent capture list absent); and the result does not depend on the
window or transform functions at all — no Fourier transform is computed. -/
theorem analyze_frame_silence_short_circuit (hw hw2 : ℕ → List ℚ)
    (rf rf2 : List ℚ → List ℚ) (rff rff2 : ℕ → ℚ → List ℚ)
    (frame : List ℚ) (sr c : ℚ) (cache : List FrameFFT)
    (hsil : maxAbs frame < SILENCE_THRESHOLD) :
    analyze_frame hw rf rff frame sr c (some cache) =
        (0, some (cache ++ [⟨[], [], 0⟩])) ∧
      analyze_frame hw rf rff frame sr c none = (0, none) ∧
      analyze_frame hw rf rff frame sr c (some cache) =
        analyze_frame hw2 rf2 rff2 frame sr c (some cache) := by
  refine ⟨?_, ?_, ?_⟩ <;> simp [analyze_frame, if_pos hsil]

/-- C5 witness: the silence short-circuit on the all-zero frame
`[0, 0, 0, 0]`, with two visibly different window/transform function
triples. -/
theorem analyze_frame_silence_short_circuit_witness :
    maxAbs [0, 0, 0, 0] < SILENCE_THRESHOLD ∧
      (analyze_frame (fun n => List.replicate n 1) (fun _ => [2, 1, 1])
            (fun _ _ => []) [0, 0, 0, 0] 4 1 (some []) =
          (0, some ([] ++ [⟨[], [], 0⟩])) ∧
        analyze_frame (fun n => List.replicate n 1) (fun _ => [2, 1, 1])
            (fun _ _ => []) [0, 0, 0, 0] 4 1 none = (0, none) ∧
        analyze_frame (fun n => List.replicate n 1) (fun _ => [2, 1, 1])
            (fun _ _ => []) [0, 0, 0, 0] 4 1 (some []) =
          analyze_frame (fun _ => []) (fun _ => [5, 5, 5, 5])
            (fun _ _ => [7]) [0, 0, 0, 0] 4 1 (some [])) :=
  ⟨by norm_num [maxAbs, SILENCE_THRESHOLD],
    analyze_frame_silence_short_circuit (fun n => List.replicate n 1)
      (fun _ => []) (fun _ => [2, 1, 1]) (fun _ => [5, 5, 5, 5])
      (fun _ _ => []) (fun _ _ => [7]) [0, 0, 0, 0] 4 1 []
      (by norm_num [maxAbs, SILENCE_THRESHOLD])⟩

/-! ## C7 -/

/-- C7: the batch loop records exactly one row per discovered file, in order
— a failing file contributes the error row while processing continues with
the remaining files — and the error row has status `"ERROR"` with every
numeric field blank (the empty string). -/
theorem run_folder_batch_error_rows (rs : String → Except String ResultRow)
    (files : List String) (p : String) :
    (run_folder_batch_loop rs files).1 =
        files.map (fun fp => match rs fp with
          | .ok r => r
          | .error _ => error_row fp) ∧
      (error_row p).status = .vstr "ERROR" ∧
      (error_row p).confidence = .vstr "" ∧
      (error_row p).samplerate_hz = .vstr "" ∧
      (error_row p).num_samples = .vstr "" ∧
      (error_row p).num_total_frames = .vstr "" ∧
      (error_row p).num_non_silent_frames = .vstr "" ∧
      (error_row p).effective_cutoff_hz = .vstr "" ∧
      (error_row p).per_cutoff_active_fraction = .vstr "" := by
  refine ⟨?_, rfl, rfl, rfl, rfl, rfl, rfl, rfl, rfl⟩
  induction files with
  | nil => rfl
  | cons fp rest ih => simp [run_folder_batch_loop, ih]

/-! ## C10 -/

/-- C10: the spectrogram-generation list produced by the batch loop is
exactly the list of files whose recorded row status differs from the literal
string `"Likely ORIGINAL"`; in particular a file whose analysis raised an
exception (recorded with status `"ERROR"`) is on it, so failed files are also
sent to the external spectrogram renderer. -/
theorem run_folder_batch_upscaled_list (rs : String → Except String ResultRow)
    (files : List String) (p e : String)
    (hp : p ∈ files) (he : rs p = .error e) :
    (run_folder_batch_loop rs files).2 =
        files.filter (fun fp =>
          (match rs fp with
            | .ok r => r
            | .error _ => error_row fp).status ≠ CellValue.vstr "Likely ORIGINAL") ∧
      p ∈ (run_folder_batch_loop rs files).2 := by
  have hfilter : (run_folder_batch_loop rs files).2 =
      files.filter (fun fp =>
        (match rs fp with
          | .ok r => r
          | .error _ => error_row fp).status ≠ CellValue.vstr "Likely ORIGINAL") := by
    clear hp
    induction files with
    | nil => rfl
    | cons fp rest ih =>
      by_cases h : (match rs fp with
          | .ok r => r
          | .error _ => error_row fp).status = CellValue.vstr "Likely ORIGINAL"
      · simpa [run_folder_batch_loop, List.filter_cons, h] using ih
      · simpa [run_folder_batch_loop, List.filter_cons, h] using ih
  refine ⟨hfilter, ?_⟩
  rw [hfilter]
  refine List.mem_filter.2 ⟨hp, ?_⟩
  simp [he, error_row]

/-- C10 witness: a single-file batch whose analysis fails lands on the
spectrogram list. -/
theorem run_folder_batch_upscaled_list_witness :
    ("a.flac" : String) ∈ ["a.flac"] ∧
      (fun _ : String => (Except.error "boom" : Except String ResultRow)) "a.flac" =
        .error "boom" ∧
      ((run_folder_batch_loop (fun _ => .error "boom") ["a.flac"]).2 =
          ["a.flac"].filter (fun fp =>
            (match (fun _ : String =>
                (Except.error "boom" : Except String ResultRow)) fp with
              | .ok r => r
              | .error _ => error_row fp).status ≠ CellValue.vstr "Likely ORIGINAL") ∧
        "a.flac" ∈ (run_folder_batch_loop (fun _ => .error "boom") ["a.flac"]).2) :=
  ⟨by simp, rfl,
    run_folder_batch_upscaled_list (fun _ => .error "boom") ["a.flac"] "a.flac" "boom"
      (by simp) rfl⟩

/-! ## C9 -/

/-- C9: the non-silent frame count reported by `run_single_file` is
`sum(r > 0 for r in ratios)`, i.e. the number of frames whose returned ratio
is strictly positive — not the number of frames that passed the silence
short-circuit; consequently appending a frame that is loud enough to pass
the silence gate but whose returned ratio is exactly 0 (for example one
whose spectral energy lies entirely at or below the cutoff bin) leaves the
count unchanged: that frame is counted as silent in the output. -/
theorem non_silent_count_is_positive_ratio_count (hw : ℕ → List ℚ)
    (rf : List ℚ → List ℚ) (rff : ℕ → ℚ → List ℚ)
    (frames : List (List ℚ)) (frame : List ℚ) (sr c : ℚ)
    (_hns : ¬ maxAbs frame < SILENCE_THRESHOLD)
    (hzero : (analyze_frame hw rf rff frame sr c none).1 = 0) :
    count_positive (frames.map (fun f => (analyze_frame hw rf rff f sr c none).1)) =
        (frames.filter (fun f =>
          0 < (analyze_frame hw rf rff f sr c none).1)).length ∧
      count_positive ((frames ++ [frame]).map
          (fun f => (analyze_frame hw rf rff f sr c none).1)) =
        count_positive
          (frames.map (fun f => (analyze_frame hw rf rff f sr c none).1)) := by
  constructor
  · induction frames with
    | nil => rfl
    | cons a t ih =>
      simp only [count_positive, List.map_cons, List.sum_cons, List.filter_cons] at ih ⊢
      by_cases h : 0 < (analyze_frame hw rf rff a sr c none).1
      · simp only [gt_iff_lt, if_pos h, ih, decide_eq_true_eq]
        simp only [List.length_cons]
        omega
      · simp only [gt_iff_lt, if_neg h, ih, decide_eq_true_eq]
        simp
  · simp only [count_positive, List.map_append, List.sum_append, List.map_cons,
      List.map_nil, List.sum_cons, List.sum_nil, hzero]
    simp

/-- C9 witness: with magnitude spectrum `[2, 1, 0]`, sample rate 4 and
cutoff 2 (cutoff bin 2), the frame `[1, 1, 1, 1]` passes the silence gate yet
gets ratio exactly 0 (all its energy sits at or below the cutoff bin), and
the reported non-silent count over `[that frame]` stays 0. -/
theorem non_silent_count_witness :
    ¬ maxAbs [1, 1, 1, 1] < SILENCE_THRESHOLD ∧
      (analyze_frame (fun n => List.replicate n 1) (fun _ => [2, 1, 0])
          (fun _ _ => []) [1, 1, 1, 1] 4 2 none).1 = 0 ∧
      (count_positive (([] : List (List ℚ)).map
            (fun f => (analyze_frame (fun n => List.replicate n 1)
              (fun _ => [2, 1, 0]) (fun _ _ => []) f 4 2 none).1)) =
          (([] : List (List ℚ)).filter (fun f =>
            0 < (analyze_frame (fun n => List.replicate n 1) (fun _ => [2, 1, 0])
              (fun _ _ => []) f 4 2 none).1)).length ∧
        count_positive ((([] : List (List ℚ)) ++ [[1, 1, 1, 1]]).map
            (fun f => (analyze_frame (fun n => List.replicate n 1)
              (fun _ => [2, 1, 0]) (fun _ _ => []) f 4 2 none).1)) =
          count_positive (([] : List (List ℚ)).map
            (fun f => (analyze_frame (fun n => List.replicate n 1)
              (fun _ => [2, 1, 0]) (fun _ _ => []) f 4 2 none).1))) := by
  have hns : ¬ maxAbs [1, 1, 1, 1] < SILENCE_THRESHOLD := by
    norm_num [maxAbs, SILENCE_THRESHOLD]
  have hzero : (analyze_frame (fun n => List.replicate n 1) (fun _ => [2, 1, 0])
      (fun _ _ => []) [1, 1, 1, 1] 4 2 none).1 = 0 := by
    norm_num [analyze_frame, maxAbs, SILENCE_THRESHOLD, _cutoff_bin, Int.toNat_ofNat]
    decide
  exact ⟨hns, hzero,
    non_silent_count_is_positive_ratio_count (fun n => List.replicate n 1)
      (fun _ => [2, 1, 0]) (fun _ _ => []) [] [1, 1, 1, 1] 4 2 hns hzero⟩

/-! ## Serialization helper lemmas -/

/-- Every character produced by `decDigit` is a decimal digit. -/
theorem decDigit_isDigit (m : ℕ) : (decDigit m).isDigit = true :=
  match m with
  | 0 => by decide
  | 1 => by decide
  | 2 => by decide
  | 3 => by decide
  | 4 => by decide
  | 5 => by decide
  | 6 => by decide
  | 7 => by decide
  | 8 => by decide
  | 9 => by decide
  | _ + 10 => rfl

/-- Every character of the fuel-driven digit expansion is a decimal digit. -/
theorem natDecDigitsAux_isDigit (fuel : ℕ) :
    ∀ n : ℕ, ∀ ch ∈ natDecDigitsAux fuel n, ch.isDigit = true := by
  induction fuel with
  | zero => intro n ch h; cases h
  | succ fuel ih =>
    intro n ch h
    rw [natDecDigitsAux] at h
    by_cases h10 : n < 10
    · rw [if_pos h10] at h
      rcases List.mem_singleton.1 h with rfl
      exact decDigit_isDigit n
    · rw [if_neg h10] at h
      rcases List.mem_append.1 h with h' | h'
      · exact ih _ ch h'
      · rcases List.mem_singleton.1 h' with rfl
        exact decDigit_isDigit (n % 10)

/-- Shape of Python fixed-point formatting: the output splits at a decimal
point followed by exactly `d` digit characters. -/
theorem formatFixedChars_shape (d : ℕ) (q : ℚ) :
    ∃ h t : List Char, formatFixedChars d q = h ++ '.' :: t ∧ t.length = d ∧
      ∀ ch ∈ t, ch.isDigit = true := by
  rw [formatFixedChars]
  set m := roundHalfEven (q * (10 : ℚ) ^ d) with hm
  set ds0 := natDecDigits m.natAbs with hds0
  set ds := List.replicate (d + 1 - ds0.length) '0' ++ ds0 with hds
  have hlen : ds.length = (d + 1 - ds0.length) + ds0.length := by
    rw [hds, List.length_append, List.length_replicate]
  refine ⟨(if m < 0 then ['-'] else []) ++ ds.take (ds.length - d),
    ds.drop (ds.length - d), by rw [List.append_assoc], ?_, ?_⟩
  · rw [List.length_drop]
    omega
  · intro ch hch
    have hmem : ch ∈ ds := List.mem_of_mem_drop hch
    rw [hds] at hmem
    rcases List.mem_append.1 hmem with h' | h'
    · rw [List.eq_of_mem_replicate h']
      decide
    · exact natDecDigitsAux_isDigit _ _ ch h'

/-- The sorted key/value pairs have ascending keys. -/
theorem sortedPairs_keys_ascending (l : List (ℚ × ℚ)) :
    ((sortedPairs l).map Prod.fst).Pairwise (· ≤ ·) := by
  have h : (sortedPairs l).Pairwise pairLe := List.sorted_insertionSort pairLe l
  rw [List.pairwise_map]
  refine h.imp ?_
  intro a b hab
  rcases hab with h' | ⟨he, _⟩
  · exact le_of_lt h'
  · exact le_of_eq he

/-! ## C8 -/

/-- C8: a non-empty per-cutoff activity map is serialized as the
semicolon-join of its `cutoff=fraction` entries taken in ascending cutoff
order (a permutation of the map's entries); each entry is the truncated
integer cutoff, `'='`, and the fraction formatted with a decimal point
followed by exactly 4 digit characters; and a numeric confidence value
(real or integer) is reformatted with exactly 6 digits after the decimal
point. -/
theorem per_cutoff_map_serialization (l : List (ℚ × ℚ)) (hne : l ≠ [])
    (kv : ℚ × ℚ) (_hkv : kv ∈ sortedPairs l) (q : ℚ) (z : ℤ) :
    _format_fractions_for_csv l =
        String.intercalate ";" ((sortedPairs l).map fraction_entry) ∧
      ((sortedPairs l).map Prod.fst).Pairwise (· ≤ ·) ∧
      (sortedPairs l).Perm l ∧
      fraction_entry kv =
        String.mk (intDecRepr (pyInt kv.1)) ++ "=" ++ formatFixed 4 kv.2 ∧
      (∃ h t : List Char, (formatFixed 4 kv.2).data = h ++ '.' :: t ∧
        t.length = 4 ∧ ∀ ch ∈ t, ch.isDigit = true) ∧
      serialize_confidence (.vnum q) = .vstr (formatFixed 6 q) ∧
      serialize_confidence (.vint z) = .vstr (formatFixed 6 (z : ℚ)) ∧
      (∃ h t : List Char, (formatFixed 6 q).data = h ++ '.' :: t ∧
        t.length = 6 ∧ ∀ ch ∈ t, ch.isDigit = true) :=
  ⟨by rw [_format_fractions_for_csv, if_neg hne],
    sortedPairs_keys_ascending l,
    List.perm_insertionSort pairLe l,
    rfl,
    formatFixedChars_shape 4 kv.2,
    rfl,
    rfl,
    formatFixedChars_shape 6 q⟩

/-- C8 witness: the serialization properties instantiated on the map
`{17000 ↦ 3/4, 16000 ↦ 1/2}` (with the entry `16000=0.5000` in the sorted
output), confidence `19/20` and integer confidence `1`. -/
theorem per_cutoff_map_serialization_witness :
    ([(17000, 3 / 4), (16000, 1 / 2)] : List (ℚ × ℚ)) ≠ [] ∧
      ((16000 : ℚ), (1 / 2 : ℚ)) ∈ sortedPairs [(17000, 3 / 4), (16000, 1 / 2)] ∧
      (_format_fractions_for_csv [(17000, 3 / 4), (16000, 1 / 2)] =
          String.intercalate ";"
            ((sortedPairs [(17000, 3 / 4), (16000, 1 / 2)]).map fraction_entry) ∧
        ((sortedPairs [(17000, 3 / 4), (16000, 1 / 2)]).map Prod.fst).Pairwise (· ≤ ·) ∧
        (sortedPairs [(17000, 3 / 4), (16000, 1 / 2)]).Perm
          [(17000, 3 / 4), (16000, 1 / 2)] ∧
        fraction_entry ((16000 : ℚ), (1 / 2 : ℚ)) =
          String.mk (intDecRepr (pyInt (16000 : ℚ))) ++ "=" ++
            formatFixed 4 (1 / 2 : ℚ) ∧
        (∃ h t : List Char, (formatFixed 4 (1 / 2 : ℚ)).data = h ++ '.' :: t ∧
          t.length = 4 ∧ ∀ ch ∈ t, ch.isDigit = true) ∧
        serialize_confidence (.vnum (19 / 20)) = .vstr (formatFixed 6 (19 / 20)) ∧
        serialize_confidence (.vint 1) = .vstr (formatFixed 6 ((1 : ℤ) : ℚ)) ∧
        (∃ h t : List Char, (formatFixed 6 (19 / 20 : ℚ)).data = h ++ '.' :: t ∧
          t.length = 6 ∧ ∀ ch ∈ t, ch.isDigit = true)) := by
  have hne : ([(17000, 3 / 4), (16000, 1 / 2)] : List (ℚ × ℚ)) ≠ [] := by simp
  have hkv : ((16000 : ℚ), (1 / 2 : ℚ)) ∈ sortedPairs [(17000, 3 / 4), (16000, 1 / 2)] :=
    (List.perm_insertionSort pairLe _).mem_iff.2 (by norm_num)
  exact ⟨hne, hkv,
    per_cutoff_map_serialization [(17000, 3 / 4), (16000, 1 / 2)] hne
      ((16000 : ℚ), (1 / 2 : ℚ)) hkv (19 / 20) 1⟩

end AudioAnalyzer
